import Mathlib

/-!
# Verification of the peak-alignment and lag-statistics core

Shallow embedding of `utils/peak_matching.py` (`calcular_desfases_entre_picos`,
`resumir_desfases`), of the resilient fallback in `utils/peak_matching_access.py`
(`_resumir_desfases_fallback`, `_calcular_metricas`), and of the best-lag
cross-correlation scan of `pages/Matriz_de_sincronía.py` (`calcular_matriz`,
branch `metrica == 'desfase'`).

Modelling conventions:
* Event timestamps are day-granularity calendar dates, embedded as `ℤ`
  (day numbers); `(t2 - t1).days` becomes plain integer subtraction.
* Python float statistics are idealised as exact rationals `ℚ`; `np.nan`
  (the undefined-statistic sentinel) is `none` in `Option ℚ`.
* `np.std(arr) = Real.sqrt (np.var arr)`; the standard deviation is exposed
  as the derived projection `Resumen.desviacion_estandar`.
* `raise ValueError` becomes `Except.error`.
* Python's `sorted` is embedded as insertion sort: on integers any sorted
  permutation is extensionally unique, so the choice of algorithm is immaterial.
-/

/-- A matched pair `(masterTimestamp, slaveTimestamp, lagDays)` as produced by
`calcular_desfases_entre_picos` with `return_pares=True`. -/
abbrev Par := ℤ × ℤ × ℤ

/-- `_ordenar_fechas`: return the dates sorted ascending (Python `sorted`). -/
def ordenarFechas (l : List ℤ) : List ℤ :=
  List.insertionSort (· ≤ ·) l

/-- `bisect.bisect_left` on a sorted list: the insertion point, i.e. the length
of the maximal prefix of elements `< x`.  (The pool the code searches is always
sorted, on which this agrees with binary search.) -/
def bisectLeft (l : List ℤ) (x : ℤ) : ℕ :=
  (l.takeWhile (fun y => decide (y < x))).length

/-- The sort key `(abs((f - m).days), (f - m).days)` used by the `min` call at
`peak_matching.py:58-61`. -/
def clave (m f : ℤ) : ℤ × ℤ := (|f - m|, f - m)

/-- Lexicographic strict comparison of keys, as Python compares tuples. -/
def claveLt (p q : ℤ × ℤ) : Prop :=
  p.1 < q.1 ∨ (p.1 = q.1 ∧ p.2 < q.2)

instance : DecidableRel claveLt := fun p q => by
  unfold claveLt; exact inferInstance

/-- Non-strict key comparison. -/
def claveLe (p q : ℤ × ℤ) : Prop := claveLt p q ∨ p = q

/-- The candidate list built at `peak_matching.py:46-51`: the pool element at
the insertion point (successor) first, then the element just before it
(predecessor); each as `(index, value)`. -/
def candidatos (pool : List ℤ) (m : ℤ) : List (ℕ × ℤ) :=
  (if bisectLeft pool m < pool.length
    then [(bisectLeft pool m, pool.getD (bisectLeft pool m) 0)] else []) ++
  (if 0 < bisectLeft pool m
    then [(bisectLeft pool m - 1, pool.getD (bisectLeft pool m - 1) 0)] else [])

/-- Python's `min(candidatos, key=...)` at `peak_matching.py:56-62`: left fold
keeping the first element whose key is minimal. -/
def seleccionar (pool : List ℤ) (m : ℤ) : Option (ℕ × ℤ) :=
  match candidatos pool m with
  | [] => none
  | c :: cs => some (cs.foldl
      (fun best cur => if claveLt (clave m cur.2) (clave m best.2) then cur else best) c)

/-- One iteration of the master loop (`peak_matching.py:41-68`): state is
`(remaining slave pool, accepted pairs so far)`.  The `break` on an empty pool
and the `continue` on an empty candidate list both appear here as the `none`
branch (an empty pool yields no candidates, and the pool never grows back). -/
def pasoMaestro (ventana : ℤ) (st : List ℤ × List Par) (m : ℤ) :
    List ℤ × List Par :=
  match seleccionar st.1 m with
  | none => st
  | some (i, f) =>
      if |f - m| ≤ ventana then (st.1.eraseIdx i, st.2 ++ [(m, f, f - m)])
      else st

/-- The matcher without the window-validation guard (`peak_matching.py:29-72`):
returns `(desfases, pares)`; `desfases` is always the lag column of `pares`. -/
def calcularCore (maestro esclavo : List ℤ) (ventana : ℤ) :
    List ℤ × List Par :=
  if maestro = [] ∨ esclavo = [] then ([], [])
  else
    let pares :=
      ((ordenarFechas maestro).foldl (pasoMaestro ventana) (ordenarFechas esclavo, [])).2
    (pares.map (fun p => p.2.2), pares)

/-- `calcular_desfases_entre_picos` (with `return_pares=True`): validates the
window (`peak_matching.py:26-27`) then runs the greedy matcher. -/
def calcular_desfases_entre_picos (maestro esclavo : List ℤ) (ventana : ℤ) :
    Except String (List ℤ × List Par) :=
  if ventana < 0 then .error "ventana_maxima_dias debe ser no negativa"
  else .ok (calcularCore maestro esclavo ventana)

/-- The `SummaryResult` dictionary returned by `resumir_desfases`
(`peak_matching.py:134-145`). -/
structure Resumen where
  desfases : List ℤ
  pares : List Par
  desfases_validos : List ℤ
  pares_validos : List Par
  pares_descartados : List Par
  varianza : Option ℚ
  desfase_medio : Option ℚ
  ventana_busqueda : ℤ
  ventana_confiable : Option ℤ
deriving DecidableEq, Repr

/-- Population mean of a list of integer lags, as an exact rational. -/
def meanQ (ds : List ℤ) : ℚ :=
  (ds.map (fun d : ℤ => (d : ℚ))).sum / (ds.length : ℚ)

/-- Population variance (`np.var`, ddof = 0) as an exact rational. -/
def varQ (ds : List ℤ) : ℚ :=
  (ds.map (fun d : ℤ => ((d : ℚ) - meanQ ds) ^ 2)).sum / (ds.length : ℚ)

/-- The statistics branches of `resumir_desfases` (`peak_matching.py:119-132`):
`(varianza, desfase_medio)`; `none` renders `np.nan`. -/
def estadisticas (ds : List ℤ) : Option ℚ × Option ℚ :=
  match ds with
  | [] => (none, none)
  | [d] => (some 0, some (d : ℚ))
  | _ => (some (varQ ds), some (meanQ ds))

/-- Body of `resumir_desfases` after window clamping (`peak_matching.py:96-145`),
taking the already-clamped `ventana_busqueda` and `ventana_confiable`. -/
def resumirAux (maestro esclavo : List ℤ) (vb : ℤ) (vc : Option ℤ) : Resumen :=
  let r := calcularCore maestro esclavo vb
  let pares_validos := match vc with
    | none => r.2
    | some w => r.2.filter (fun p => decide (|p.2.2| ≤ w))
  let pares_descartados := match vc with
    | none => ([] : List Par)
    | some w => r.2.filter (fun p => decide (w < |p.2.2|))
  let desfases_validos := pares_validos.map (fun p => p.2.2)
  { desfases := r.1
    pares := r.2
    desfases_validos := desfases_validos
    pares_validos := pares_validos
    pares_descartados := pares_descartados
    varianza := (estadisticas desfases_validos).1
    desfase_medio := (estadisticas desfases_validos).2
    ventana_busqueda := vb
    ventana_confiable := vc }

/-- `resumir_desfases` (`peak_matching.py:75-145`): clamps the windows
(`ventana_busqueda = max(0, vb)`, `ventana_confiable` into `[0, ventana_busqueda]`)
and summarises the matcher's output. -/
def resumir_desfases (maestro esclavo : List ℤ) (vb : ℤ) (vc : Option ℤ) : Resumen :=
  resumirAux maestro esclavo (max 0 vb) (vc.map (fun v => min (max 0 v) (max 0 vb)))

/-- The `desviacion_estandar` entry of the dictionary: `np.std = sqrt ∘ np.var`
(and the explicit `0.0` of the single-element branch equals `√0`). -/
noncomputable def Resumen.desviacion_estandar (r : Resumen) : Option ℝ :=
  r.varianza.map (fun q => Real.sqrt (q : ℝ))

/-- `_calcular_metricas` from `peak_matching_access.py:16-23`:
`(varianza, desfase_medio)`; `none` renders `float("nan")`. -/
def calcularMetricas (ds : List ℤ) : Option ℚ × Option ℚ :=
  match ds with
  | [] => (none, none)
  | [d] => (some 0, some (d : ℚ))
  | _ => (some (varQ ds), some (meanQ ds))

/-- Body of `_resumir_desfases_fallback` (`peak_matching_access.py:26-92`) after
window clamping, applied to `calcular_desfases_entre_picos` as the claim fixes
(so the `try` at lines 41-47 takes the no-`TypeError` branch and `resultado` is
the 2-tuple `(desfases, pares)`).  The Python guard
`ventana_confiable is None or not pares` appears as the `none` branch plus the
inner emptiness test. -/
def fallbackAux (maestro esclavo : List ℤ) (vb : ℤ) (vc : Option ℤ) : Resumen :=
  let r := calcularCore maestro esclavo vb
  match vc with
  | none =>
      { desfases := r.1, pares := r.2
        desfases_validos := r.1
        pares_validos := r.2, pares_descartados := []
        varianza := (calcularMetricas r.1).1
        desfase_medio := (calcularMetricas r.1).2
        ventana_busqueda := vb, ventana_confiable := none }
  | some w =>
      if r.2 = [] then
        { desfases := r.1, pares := r.2
          desfases_validos := r.1
          pares_validos := r.2, pares_descartados := []
          varianza := (calcularMetricas r.1).1
          desfase_medio := (calcularMetricas r.1).2
          ventana_busqueda := vb, ventana_confiable := some w }
      else
        let pares_validos := r.2.filter (fun p => decide (|p.2.2| ≤ w))
        let pares_descartados := r.2.filter (fun p => decide (w < |p.2.2|))
        let desfases_validos := pares_validos.map (fun p => p.2.2)
        { desfases := r.1, pares := r.2
          desfases_validos := desfases_validos
          pares_validos := pares_validos, pares_descartados := pares_descartados
          varianza := (calcularMetricas desfases_validos).1
          desfase_medio := (calcularMetricas desfases_validos).2
          ventana_busqueda := vb, ventana_confiable := some w }

/-- `_resumir_desfases_fallback` applied to `calcular_desfases_entre_picos`:
clamps the windows exactly as `resumir_desfases` does
(`peak_matching_access.py:34-37`). -/
def resumir_desfases_fallback (maestro esclavo : List ℤ) (vb : ℤ) (vc : Option ℤ) :
    Resumen :=
  fallbackAux maestro esclavo (max 0 vb) (vc.map (fun v => min (max 0 v) (max 0 vb)))

/-- The ascending lag range `range(-60, 61)` of `Matriz_de_sincronía.py:95`. -/
def lagRange : List ℤ := (List.range 121).map (fun k : ℕ => (k : ℤ) - 60)

/-- One iteration of the best-lag scan (`Matriz_de_sincronía.py:96-99`): the
correlation value is an `Option ℚ` (`none` models a NaN correlation, for which
`corr > max_corr` is false and the running best is kept). -/
def pasoLag (corr : ℤ → Option ℚ) (best : ℚ × ℤ) (lag : ℤ) : ℚ × ℤ :=
  match corr lag with
  | none => best
  | some c => if best.1 < c then (c, lag) else best

/-- The full scan (`Matriz_de_sincronía.py:92-99`), starting from
`max_corr, mejor_lag = -1, 0`. -/
def mejorLagScan (corr : ℤ → Option ℚ) : ℚ × ℤ :=
  lagRange.foldl (pasoLag corr) (-1, 0)

/-- The `mejor_lag` value stored in the matrix cell. -/
def mejorLag (corr : ℤ → Option ℚ) : ℤ := (mejorLagScan corr).2

/-- A cell of the `BestLagMatrix` (`Matriz_de_sincronía.py:63-68` for the
diagonal, `90-100` off-diagonal), abstracted over the pairwise Pearson
correlation oracle `corr i j lag`. -/
def celdaDesfase (corr : ℕ → ℕ → ℤ → Option ℚ) (i j : ℕ) : ℤ :=
  if i = j then 0 else mejorLag (corr i j)

/-- Modelled from the spec: "the first (most negative) lag achieving the
maximum correlation".  `l` attains the maximum correlation over the scan
range. -/
def lagAlcanzaMaximo (corr : ℤ → Option ℚ) (l : ℤ) : Prop :=
  l ∈ lagRange ∧ ∃ q, corr l = some q ∧
    ∀ l' ∈ lagRange, ∀ q', corr l' = some q' → q' ≤ q

/-- Modelled from the spec: `l` is the first lag of the ascending scan range
attaining the maximum correlation. -/
def primerLagMaximo (corr : ℤ → Option ℚ) (l : ℤ) : Prop :=
  lagAlcanzaMaximo corr l ∧ ∀ l' ∈ lagRange, l' < l → ¬ lagAlcanzaMaximo corr l'

/-! ## Helper lemmas on the insertion point -/

lemma bisectLeft_cons (y : ℤ) (ys : List ℤ) (x : ℤ) :
    bisectLeft (y :: ys) x = if y < x then bisectLeft ys x + 1 else 0 := by
  unfold bisectLeft
  by_cases h : y < x <;> simp [List.takeWhile_cons, h]

lemma bisectLeft_le_length (l : List ℤ) (x : ℤ) :
    bisectLeft l x ≤ l.length := by
  induction l with
  | nil => simp [bisectLeft]
  | cons y ys ih =>
      rw [bisectLeft_cons]
      by_cases h : y < x
      · simp only [h, if_true, List.length_cons]
        omega
      · simp [h]

lemma bisectLeft_lt (l : List ℤ) (x : ℤ) (i : ℕ) (h : i < bisectLeft l x) :
    l.getD i 0 < x := by
  induction l generalizing i with
  | nil => simp [bisectLeft] at h
  | cons y ys ih =>
      rw [bisectLeft_cons] at h
      by_cases hy : y < x
      · simp only [hy, if_true] at h
        cases i with
        | zero => simpa using hy
        | succ j => simpa using ih j (by omega)
      · simp [hy] at h

lemma bisectLeft_ge (l : List ℤ) (x : ℤ) (h : bisectLeft l x < l.length) :
    x ≤ l.getD (bisectLeft l x) 0 := by
  induction l with
  | nil => simp at h
  | cons y ys ih =>
      rw [bisectLeft_cons] at h ⊢
      by_cases hy : y < x
      · simp only [hy, if_true] at h ⊢
        simpa using ih (by simpa using h)
      · simp only [hy, if_false]
        simpa using not_lt.mp hy

lemma claveLt_total (p q : ℤ × ℤ) : claveLt p q ∨ p = q ∨ claveLt q p := by
  obtain ⟨p1, p2⟩ := p
  obtain ⟨q1, q2⟩ := q
  simp only [claveLt, Prod.mk.injEq]
  omega

/-! ## C2: the selected candidate minimizes `(|lag|, lag)`; ties go to the
predecessor -/

/-- C2: at every iteration of the master loop, the candidate selected from the
(at most two) pool neighbours of the insertion point minimizes the key
`(|lag|, lag)`; in particular, when predecessor and successor lie at equal
absolute day distance from the master timestamp, the predecessor (more
negative lag) is selected. -/
theorem seleccion_minimiza_clave (pool : List ℤ) (m : ℤ) :
    (∀ sel, seleccionar pool m = some sel →
      ∀ c ∈ candidatos pool m, claveLe (clave m sel.2) (clave m c.2)) ∧
    (0 < bisectLeft pool m → bisectLeft pool m < pool.length →
      |pool.getD (bisectLeft pool m - 1) 0 - m| = |pool.getD (bisectLeft pool m) 0 - m| →
      seleccionar pool m =
        some (bisectLeft pool m - 1, pool.getD (bisectLeft pool m - 1) 0)) := by
  by_cases h1 : bisectLeft pool m < pool.length <;>
    by_cases h2 : 0 < bisectLeft pool m
  · -- both successor and predecessor exist
    have hsel : seleccionar pool m =
        some (if claveLt (clave m (pool.getD (bisectLeft pool m - 1) 0))
                  (clave m (pool.getD (bisectLeft pool m) 0))
              then (bisectLeft pool m - 1, pool.getD (bisectLeft pool m - 1) 0)
              else (bisectLeft pool m, pool.getD (bisectLeft pool m) 0)) := by
      simp [seleccionar, candidatos, h1, h2]
    have hpred : pool.getD (bisectLeft pool m - 1) 0 < m :=
      bisectLeft_lt pool m _ (by omega)
    have hsucc : m ≤ pool.getD (bisectLeft pool m) 0 := bisectLeft_ge pool m h1
    constructor
    · intro sel hs c hc
      rw [hsel] at hs
      have hc' : c = (bisectLeft pool m, pool.getD (bisectLeft pool m) 0) ∨
          c = (bisectLeft pool m - 1, pool.getD (bisectLeft pool m - 1) 0) := by
        simpa [candidatos, h1, h2] using hc
      by_cases hlt : claveLt (clave m (pool.getD (bisectLeft pool m - 1) 0))
          (clave m (pool.getD (bisectLeft pool m) 0))
      · rw [if_pos hlt] at hs
        obtain rfl : sel = (bisectLeft pool m - 1, pool.getD (bisectLeft pool m - 1) 0) :=
          (Option.some.inj hs).symm
        rcases hc' with rfl | rfl
        · exact Or.inl hlt
        · exact Or.inr rfl
      · rw [if_neg hlt] at hs
        obtain rfl : sel = (bisectLeft pool m, pool.getD (bisectLeft pool m) 0) :=
          (Option.some.inj hs).symm
        rcases hc' with rfl | rfl
        · exact Or.inr rfl
        · rcases claveLt_total (clave m (pool.getD (bisectLeft pool m) 0))
              (clave m (pool.getD (bisectLeft pool m - 1) 0)) with h | h | h
          · exact Or.inl h
          · exact Or.inr h
          · exact absurd h hlt
    · intro _ _ heq
      have hlt : claveLt (clave m (pool.getD (bisectLeft pool m - 1) 0))
          (clave m (pool.getD (bisectLeft pool m) 0)) := by
        simp only [claveLt, clave]
        exact Or.inr ⟨heq, by omega⟩
      rw [hsel, if_pos hlt]
  · -- successor only
    refine ⟨?_, fun h2' => absurd h2' h2⟩
    intro sel hs c hc
    have hsel : seleccionar pool m =
        some (bisectLeft pool m, pool.getD (bisectLeft pool m) 0) := by
      simp [seleccionar, candidatos, h1, h2]
    rw [hsel] at hs
    obtain rfl := (Option.some.inj hs).symm
    have hc' : c = (bisectLeft pool m, pool.getD (bisectLeft pool m) 0) := by
      simpa [candidatos, h1, h2] using hc
    exact Or.inr (by rw [hc'])
  · -- predecessor only
    refine ⟨?_, fun _ h1' => absurd h1' h1⟩
    intro sel hs c hc
    have hsel : seleccionar pool m =
        some (bisectLeft pool m - 1, pool.getD (bisectLeft pool m - 1) 0) := by
      simp [seleccionar, candidatos, h1, h2]
    rw [hsel] at hs
    obtain rfl := (Option.some.inj hs).symm
    have hc' : c = (bisectLeft pool m - 1, pool.getD (bisectLeft pool m - 1) 0) := by
      simpa [candidatos, h1, h2] using hc
    exact Or.inr (by rw [hc'])
  · -- empty pool: no candidates
    refine ⟨?_, fun h2' => absurd h2' h2⟩
    intro sel hs
    have : seleccionar pool m = none := by simp [seleccionar, candidatos, h1, h2]
    rw [this] at hs
    cases hs

/-- C2 witness: pool `[0, 4]`, master `2`: predecessor `0` and successor `4`
are both 2 days away; the predecessor is selected, and its key is minimal. -/
theorem seleccion_minimiza_clave_witness :
    seleccionar [0, 4] 2 = some (0, 0) ∧ claveLe (clave 2 0) (clave 2 4) := by
  constructor
  · exact (seleccion_minimiza_clave [0, 4] 2).2 (by decide) (by decide) (by decide)
  · exact (seleccion_minimiza_clave [0, 4] 2).1 (0, 0)
      ((seleccion_minimiza_clave [0, 4] 2).2 (by decide) (by decide) (by decide))
      (1, 4) (by decide)

/-! ## C3: negative search window — matcher raises, summarizer clamps -/

/-- C3 counterexample: `resumir_desfases` invoked with `ventana_busqueda = -5`
does not fail: it silently clamps the window to `0` and returns a normal
summary (here even containing an accepted pair). -/
theorem resumir_ventana_negativa_counterexample :
    (resumir_desfases [0] [0] (-5) (some 45)).ventana_busqueda = 0 ∧
    (resumir_desfases [0] [0] (-5) (some 45)).pares = [(0, 0, 0)] := by
  constructor <;> rfl

/-- C3 amended: for a negative window, `calcular_desfases_entre_picos` fails
immediately with the `ValueError`, while `resumir_desfases` silently clamps the
negative `ventana_busqueda` to `0` (behaving exactly as if `0` were passed)
and does not fail. -/
theorem ventana_negativa (maestro esclavo : List ℤ) (v : ℤ) (vc : Option ℤ)
    (h : v < 0) :
    calcular_desfases_entre_picos maestro esclavo v =
      .error "ventana_maxima_dias debe ser no negativa" ∧
    resumir_desfases maestro esclavo v vc = resumir_desfases maestro esclavo 0 vc ∧
    (resumir_desfases maestro esclavo v vc).ventana_busqueda = 0 := by
  have hmax : max 0 v = 0 := max_eq_left h.le
  refine ⟨?_, ?_, ?_⟩
  · unfold calcular_desfases_entre_picos
    rw [if_pos h]
  · unfold resumir_desfases
    rw [hmax, max_self]
  · unfold resumir_desfases
    rw [hmax]
    rfl

/-- C3 witness: the amended statement at window `-5`. -/
theorem ventana_negativa_witness :
    calcular_desfases_entre_picos [0] [3] (-5) =
      .error "ventana_maxima_dias debe ser no negativa" ∧
    resumir_desfases [0] [3] (-5) (some 45) = resumir_desfases [0] [3] 0 (some 45) ∧
    (resumir_desfases [0] [3] (-5) (some 45)).ventana_busqueda = 0 :=
  ventana_negativa [0] [3] (-5) (some 45) (by decide)

/-! ## C7: a reliable window wider than the search window is clamped down -/

/-- C7: calling the summarizer with `reliableWindowDays` strictly greater than
`searchWindowDays` returns exactly the same summary as calling it with
`reliableWindowDays = searchWindowDays`. -/
theorem ventana_confiable_recortada (maestro esclavo : List ℤ) (vb w : ℤ)
    (h : vb < w) :
    resumir_desfases maestro esclavo vb (some w) =
      resumir_desfases maestro esclavo vb (some vb) := by
  unfold resumir_desfases
  simp only [Option.map_some']
  have : min (max 0 w) (max 0 vb) = min (max 0 vb) (max 0 vb) := by omega
  rw [this]

/-- C7 witness: search window 30, reliable window 50 behaves as reliable 30. -/
theorem ventana_confiable_recortada_witness :
    resumir_desfases [0] [1] 30 (some 50) = resumir_desfases [0] [1] 30 (some 30) :=
  ventana_confiable_recortada [0] [1] 30 50 (by decide)

/-! ## C10: the resilient fallback summarizer equals the primary one -/

lemma calcularMetricas_eq_estadisticas (ds : List ℤ) :
    calcularMetricas ds = estadisticas ds := by
  rcases ds with _ | ⟨a, _ | ⟨b, tl⟩⟩ <;> rfl

lemma calcularCore_fst (maestro esclavo : List ℤ) (v : ℤ) :
    (calcularCore maestro esclavo v).1 =
      (calcularCore maestro esclavo v).2.map (fun p => p.2.2) := by
  by_cases h : maestro = [] ∨ esclavo = [] <;> simp [calcularCore, h]

lemma fallbackAux_eq_resumirAux (maestro esclavo : List ℤ) (vb : ℤ) (vc : Option ℤ) :
    fallbackAux maestro esclavo vb vc = resumirAux maestro esclavo vb vc := by
  cases vc with
  | none =>
      simp only [fallbackAux, resumirAux, calcularMetricas_eq_estadisticas]
      rw [calcularCore_fst]
  | some w =>
      by_cases hp : (calcularCore maestro esclavo vb).2 = []
      · simp only [fallbackAux, resumirAux, calcularMetricas_eq_estadisticas, hp,
          if_pos, List.filter_nil, List.map_nil]
        rw [calcularCore_fst, hp]
        simp
      · simp only [fallbackAux, resumirAux, calcularMetricas_eq_estadisticas, hp,
          if_neg, ite_false]

/-- C10: on every input and parameter pair, `_resumir_desfases_fallback` applied
to `calcular_desfases_entre_picos` returns a dictionary equal, key by key, to
the one `resumir_desfases` returns (the standard deviation key, a function of
the variance key, is therefore also equal). -/
theorem fallback_equivalente (maestro esclavo : List ℤ) (vb : ℤ) (vc : Option ℤ) :
    resumir_desfases_fallback maestro esclavo vb vc =
      resumir_desfases maestro esclavo vb vc := by
  unfold resumir_desfases_fallback resumir_desfases
  exact fallbackAux_eq_resumirAux maestro esclavo (max 0 vb)
    (vc.map (fun v => min (max 0 v) (max 0 vb)))

/-! ## C5: valid and discarded pairs partition the accepted pairs -/

lemma decide_lt_eq_not_le (a b : ℤ) : decide (b < a) = !decide (a ≤ b) := by
  by_cases h : a ≤ b
  · simp [h, not_lt.mpr h]
  · simp [h, not_le.mp h]

/-- C5: `validPairs` and `discardedPairs` partition the accepted pairs exactly
(union with multiplicity is a permutation of the accepted list, intersection
empty); with `reliableWindowDays = None` every accepted pair is valid and
`discardedPairs` is empty; with `reliableWindowDays = w` membership in
`validPairs` is exactly `|lag| ≤ min (max 0 w) (max 0 searchWindowDays)`, the
clamped reliable window recorded in the result. -/
theorem particion_validos_descartados (maestro esclavo : List ℤ) (vb : ℤ)
    (vc : Option ℤ) :
    ((resumir_desfases maestro esclavo vb vc).pares_validos ++
        (resumir_desfases maestro esclavo vb vc).pares_descartados).Perm
      (resumir_desfases maestro esclavo vb vc).pares ∧
    (∀ p, p ∈ (resumir_desfases maestro esclavo vb vc).pares_validos →
      p ∉ (resumir_desfases maestro esclavo vb vc).pares_descartados) ∧
    (vc = none →
      (resumir_desfases maestro esclavo vb vc).pares_validos =
          (resumir_desfases maestro esclavo vb vc).pares ∧
        (resumir_desfases maestro esclavo vb vc).pares_descartados = []) ∧
    (∀ w, vc = some w →
      ∀ p ∈ (resumir_desfases maestro esclavo vb vc).pares,
        (p ∈ (resumir_desfases maestro esclavo vb vc).pares_validos ↔
          |p.2.2| ≤ min (max 0 w) (max 0 vb))) := by
  cases vc with
  | none =>
      refine ⟨?_, ?_, fun _ => ⟨rfl, rfl⟩, fun w hw => by cases hw⟩
      · simp [resumir_desfases, resumirAux]
      · intro p _
        simp [resumir_desfases, resumirAux]
  | some u =>
      have hQP : (calcularCore maestro esclavo (max 0 vb)).2.filter
            (fun p => decide (min (max 0 u) (max 0 vb) < |p.2.2|)) =
          (calcularCore maestro esclavo (max 0 vb)).2.filter
            (fun p => !decide (|p.2.2| ≤ min (max 0 u) (max 0 vb))) :=
        List.filter_congr (fun x _ => decide_lt_eq_not_le _ _)
      refine ⟨?_, ?_, fun h => Option.noConfusion h, ?_⟩
      · simp only [resumir_desfases, Option.map_some', resumirAux]
        rw [hQP]
        exact List.filter_append_perm _ _
      · intro p hp hq
        simp only [resumir_desfases, Option.map_some', resumirAux,
          List.mem_filter, decide_eq_true_eq] at hp hq
        omega
      · intro w hw p hp
        obtain rfl : u = w := by injection hw
        simp only [resumir_desfases, Option.map_some', resumirAux,
          List.mem_filter, decide_eq_true_eq] at hp ⊢
        exact ⟨fun h => h.2, fun h => ⟨hp, h⟩⟩

/-- C5 witness: master `[0, 100]`, slave `[1, 160]`, search 90, reliable 30:
the pair with lag 1 is valid, the pair with lag 60 is discarded. -/
theorem particion_validos_descartados_witness :
    ((resumir_desfases [0, 100] [1, 160] 90 (some 30)).pares_validos ++
        (resumir_desfases [0, 100] [1, 160] 90 (some 30)).pares_descartados).Perm
      (resumir_desfases [0, 100] [1, 160] 90 (some 30)).pares ∧
    (((0 : ℤ), (1 : ℤ), (1 : ℤ)) ∈
        (resumir_desfases [0, 100] [1, 160] 90 (some 30)).pares_validos ↔
      |(1 : ℤ)| ≤ min (max 0 30) (max 0 90)) := by
  constructor
  · exact (particion_validos_descartados [0, 100] [1, 160] 90 (some 30)).1
  · exact (particion_validos_descartados [0, 100] [1, 160] 90 (some 30)).2.2.2
      30 rfl (0, 1, 1) (by decide)

/-! ## C6: degenerate statistics: sentinel when empty, zeros when singleton -/

lemma resumen_varianza_eq (maestro esclavo : List ℤ) (vb : ℤ) (vc : Option ℤ) :
    (resumir_desfases maestro esclavo vb vc).varianza =
      (estadisticas ((resumir_desfases maestro esclavo vb vc).pares_validos.map
        (fun p => p.2.2))).1 := rfl

lemma resumen_medio_eq (maestro esclavo : List ℤ) (vb : ℤ) (vc : Option ℤ) :
    (resumir_desfases maestro esclavo vb vc).desfase_medio =
      (estadisticas ((resumir_desfases maestro esclavo vb vc).pares_validos.map
        (fun p => p.2.2))).2 := rfl

/-- C6: zero valid pairs make variance, mean and standard deviation the
undefined sentinel (`none`, i.e. NaN — in particular not zero); exactly one
valid pair makes variance and standard deviation `0` and the mean that single
pair's lag. -/
theorem estadisticas_degeneradas (maestro esclavo : List ℤ) (vb : ℤ)
    (vc : Option ℤ) :
    ((resumir_desfases maestro esclavo vb vc).pares_validos = [] →
      (resumir_desfases maestro esclavo vb vc).varianza = none ∧
      (resumir_desfases maestro esclavo vb vc).desfase_medio = none ∧
      (resumir_desfases maestro esclavo vb vc).desviacion_estandar = none ∧
      (resumir_desfases maestro esclavo vb vc).varianza ≠ some 0) ∧
    (∀ p : Par, (resumir_desfases maestro esclavo vb vc).pares_validos = [p] →
      (resumir_desfases maestro esclavo vb vc).varianza = some 0 ∧
      (resumir_desfases maestro esclavo vb vc).desviacion_estandar = some 0 ∧
      (resumir_desfases maestro esclavo vb vc).desfase_medio = some (p.2.2 : ℚ)) := by
  constructor
  · intro h
    have hv : (resumir_desfases maestro esclavo vb vc).varianza = none := by
      rw [resumen_varianza_eq, h]; rfl
    have hm : (resumir_desfases maestro esclavo vb vc).desfase_medio = none := by
      rw [resumen_medio_eq, h]; rfl
    refine ⟨hv, hm, ?_, by simp [hv]⟩
    simp [Resumen.desviacion_estandar, hv]
  · intro p h
    have hv : (resumir_desfases maestro esclavo vb vc).varianza = some 0 := by
      rw [resumen_varianza_eq, h]; rfl
    have hm : (resumir_desfases maestro esclavo vb vc).desfase_medio =
        some (p.2.2 : ℚ) := by
      rw [resumen_medio_eq, h]; rfl
    refine ⟨hv, ?_, hm⟩
    simp [Resumen.desviacion_estandar, hv]

/-- C6 witness: empty inputs give the sentinel; master `[0]`, slave `[1]` give
a single valid pair with lag 1, variance 0, std 0, mean 1. -/
theorem estadisticas_degeneradas_witness :
    (resumir_desfases [] [] 90 (some 45)).varianza = none ∧
    (resumir_desfases [0] [1] 90 (some 45)).varianza = some 0 ∧
    (resumir_desfases [0] [1] 90 (some 45)).desviacion_estandar = some 0 ∧
    (resumir_desfases [0] [1] 90 (some 45)).desfase_medio = some ((1 : ℤ) : ℚ) := by
  refine ⟨((estadisticas_degeneradas [] [] 90 (some 45)).1 rfl).1, ?_, ?_, ?_⟩
  · exact ((estadisticas_degeneradas [0] [1] 90 (some 45)).2 (0, 1, 1) rfl).1
  · exact ((estadisticas_degeneradas [0] [1] 90 (some 45)).2 (0, 1, 1) rfl).2.1
  · exact ((estadisticas_degeneradas [0] [1] 90 (some 45)).2 (0, 1, 1) rfl).2.2

/-! ## C1 and C4: partial injectivity and the window bound on accepted pairs -/

lemma foldl_choice_mem {α : Type} (g : α → α → α)
    (hg : ∀ a b, g a b = a ∨ g a b = b) :
    ∀ (cs : List α) (c : α), cs.foldl g c ∈ c :: cs := by
  intro cs
  induction cs with
  | nil => intro c; simp
  | cons d cs ih =>
      intro c
      rw [List.foldl_cons]
      rcases hg c d with h | h <;> rw [h]
      · have := ih c
        simp only [List.mem_cons] at this ⊢
        tauto
      · have := ih d
        simp only [List.mem_cons] at this ⊢
        tauto

lemma candidatos_spec (pool : List ℤ) (m : ℤ) :
    ∀ c ∈ candidatos pool m, c.1 < pool.length ∧ pool.getD c.1 0 = c.2 := by
  intro c hc
  have hlen := bisectLeft_le_length pool m
  unfold candidatos at hc
  rw [List.mem_append] at hc
  rcases hc with hc | hc
  · by_cases h1 : bisectLeft pool m < pool.length
    · rw [if_pos h1, List.mem_singleton] at hc
      subst hc
      exact ⟨h1, rfl⟩
    · rw [if_neg h1] at hc
      cases hc
  · by_cases h2 : 0 < bisectLeft pool m
    · rw [if_pos h2, List.mem_singleton] at hc
      subst hc
      exact ⟨by omega, rfl⟩
    · rw [if_neg h2] at hc
      cases hc

lemma seleccionar_mem (pool : List ℤ) (m : ℤ) (i : ℕ) (f : ℤ)
    (h : seleccionar pool m = some (i, f)) :
    i < pool.length ∧ pool.getD i 0 = f := by
  unfold seleccionar at h
  rcases hc : candidatos pool m with _ | ⟨c, cs⟩ <;> rw [hc] at h
  · cases h
  · have hmem : cs.foldl
        (fun best cur => if claveLt (clave m cur.2) (clave m best.2) then cur else best)
        c ∈ c :: cs := by
      apply foldl_choice_mem
      intro a b
      by_cases hab : claveLt (clave m b.2) (clave m a.2) <;> simp [hab]
    rw [← hc] at hmem
    obtain heq := Option.some.inj h
    rw [heq] at hmem
    exact candidatos_spec pool m (i, f) hmem

lemma getD_cons_eraseIdx :
    ∀ (l : List ℤ) (i : ℕ), i < l.length → (l.getD i 0 :: l.eraseIdx i).Perm l := by
  intro l
  induction l with
  | nil => intro i h; simp at h
  | cons y ys ih =>
      intro i h
      cases i with
      | zero => simp
      | succ j =>
          have hj : j < ys.length := by simpa using h
          have h1 : (ys.getD j 0 :: y :: ys.eraseIdx j).Perm
              (y :: ys.getD j 0 :: ys.eraseIdx j) :=
            List.Perm.swap y (ys.getD j 0) (ys.eraseIdx j)
          have h2 : (y :: ys.getD j 0 :: ys.eraseIdx j).Perm (y :: ys) :=
            List.Perm.cons y (ih j hj)
          simpa using h1.trans h2

lemma pasoMaestro_none (v : ℤ) (pool : List ℤ) (acc : List Par) (m : ℤ)
    (hsel : seleccionar pool m = none) :
    pasoMaestro v (pool, acc) m = (pool, acc) := by
  simp [pasoMaestro, hsel]

lemma pasoMaestro_acepta (v : ℤ) (pool : List ℤ) (acc : List Par) (m : ℤ)
    (i : ℕ) (f : ℤ) (hsel : seleccionar pool m = some (i, f)) (hw : |f - m| ≤ v) :
    pasoMaestro v (pool, acc) m = (pool.eraseIdx i, acc ++ [(m, f, f - m)]) := by
  simp [pasoMaestro, hsel, hw]

lemma pasoMaestro_rechaza (v : ℤ) (pool : List ℤ) (acc : List Par) (m : ℤ)
    (i : ℕ) (f : ℤ) (hsel : seleccionar pool m = some (i, f)) (hw : ¬ |f - m| ≤ v) :
    pasoMaestro v (pool, acc) m = (pool, acc) := by
  simp [pasoMaestro, hsel, hw]

/-- Multiset conservation: the slave components of the emitted pairs plus the
remaining pool always make up exactly the initial pool (each removal feeds
exactly one pair). -/
lemma conservacion_esclavos (v : ℤ) :
    ∀ (ms pool : List ℤ) (acc : List Par),
      ((List.foldl (pasoMaestro v) (pool, acc) ms).2.map (fun p => p.2.1) : Multiset ℤ) +
          ((List.foldl (pasoMaestro v) (pool, acc) ms).1 : Multiset ℤ) =
        (acc.map (fun p => p.2.1) : Multiset ℤ) + (pool : Multiset ℤ) := by
  intro ms
  induction ms with
  | nil => intro pool acc; rfl
  | cons m ms ih =>
      intro pool acc
      rw [List.foldl_cons]
      rcases hsel : seleccionar pool m with _ | ⟨i, f⟩
      · rw [pasoMaestro_none v pool acc m hsel]
        exact ih pool acc
      · by_cases hw : |f - m| ≤ v
        · rw [pasoMaestro_acepta v pool acc m i f hsel hw, ih]
          obtain ⟨hi, hf⟩ := seleccionar_mem pool m i f hsel
          have hperm : ((f :: pool.eraseIdx i : List ℤ) : Multiset ℤ) = (pool : Multiset ℤ) := by
            rw [Multiset.coe_eq_coe]
            exact hf ▸ getD_cons_eraseIdx pool i hi
          rw [List.map_append, ← hperm]
          simp only [List.map_cons, List.map_nil, Multiset.coe_add,
            Multiset.coe_singleton, Multiset.cons_coe, add_assoc,
            Multiset.singleton_add]
          rw [List.append_assoc, List.singleton_append]
        · rw [pasoMaestro_rechaza v pool acc m i f hsel hw]
          exact ih pool acc

/-- The master components of the emitted pairs form a subsequence of the
processed master list: each master contributes at most one pair. -/
lemma maestros_subsecuencia (v : ℤ) :
    ∀ (ms pool : List ℤ) (acc : List Par),
      ∃ sub : List ℤ,
        (List.foldl (pasoMaestro v) (pool, acc) ms).2.map (fun p => p.1) =
            acc.map (fun p => p.1) ++ sub ∧
          sub.Sublist ms := by
  intro ms
  induction ms with
  | nil => intro pool acc; exact ⟨[], by simp, List.Sublist.refl []⟩
  | cons m ms ih =>
      intro pool acc
      rw [List.foldl_cons]
      rcases hsel : seleccionar pool m with _ | ⟨i, f⟩
      · rw [pasoMaestro_none v pool acc m hsel]
        obtain ⟨sub, hs1, hs2⟩ := ih pool acc
        exact ⟨sub, hs1, hs2.cons m⟩
      · by_cases hw : |f - m| ≤ v
        · rw [pasoMaestro_acepta v pool acc m i f hsel hw]
          obtain ⟨sub, hs1, hs2⟩ := ih (pool.eraseIdx i) (acc ++ [(m, f, f - m)])
          refine ⟨m :: sub, ?_, hs2.cons₂ m⟩
          rw [hs1, List.map_append]
          simp
        · rw [pasoMaestro_rechaza v pool acc m i f hsel hw]
          obtain ⟨sub, hs1, hs2⟩ := ih pool acc
          exact ⟨sub, hs1, hs2.cons m⟩

lemma calcular_ok_pares (maestro esclavo : List ℤ) (v : ℤ) (ds : List ℤ)
    (pares : List Par)
    (h : calcular_desfases_entre_picos maestro esclavo v = .ok (ds, pares)) :
    pares = [] ∨
      pares = ((ordenarFechas maestro).foldl (pasoMaestro v)
        (ordenarFechas esclavo, [])).2 := by
  by_cases hv : v < 0
  · rw [calcular_desfases_entre_picos, if_pos hv] at h
    cases h
  · rw [calcular_desfases_entre_picos, if_neg hv] at h
    obtain h' := Except.ok.inj h
    by_cases he : maestro = [] ∨ esclavo = []
    · rw [calcularCore, if_pos he] at h'
      left
      exact (congrArg Prod.snd h').symm
    · rw [calcularCore, if_neg he] at h'
      right
      exact (congrArg Prod.snd h').symm

/-- C1: in the match result, each master timestamp occurrence contributes at
most one pair and each slave timestamp occurrence is consumed by at most one
pair: with multiplicity, the master components of `pares` form a sub-multiset
of the master input and the slave components a sub-multiset of the slave input
(a partial injection; unmatched events are allowed). -/
theorem emparejamiento_inyectivo (maestro esclavo : List ℤ) (v : ℤ)
    (ds : List ℤ) (pares : List Par)
    (h : calcular_desfases_entre_picos maestro esclavo v = .ok (ds, pares)) :
    ((pares.map (fun p => p.1) : List ℤ) : Multiset ℤ) ≤ (maestro : Multiset ℤ) ∧
    ((pares.map (fun p => p.2.1) : List ℤ) : Multiset ℤ) ≤ (esclavo : Multiset ℤ) := by
  rcases calcular_ok_pares maestro esclavo v ds pares h with rfl | hp
  · constructor <;> simp
  · constructor
    · obtain ⟨sub, hs1, hs2⟩ := maestros_subsecuencia v (ordenarFechas maestro)
        (ordenarFechas esclavo) []
      have hs1' : (List.foldl (pasoMaestro v) (ordenarFechas esclavo, [])
          (ordenarFechas maestro)).2.map (fun p => p.1) = sub := by
        simpa using hs1
      rw [hp]
      calc ((List.foldl (pasoMaestro v) (ordenarFechas esclavo, [])
              (ordenarFechas maestro)).2.map (fun p => p.1) : Multiset ℤ)
          = (sub : Multiset ℤ) := by rw [hs1']
        _ ≤ (ordenarFechas maestro : Multiset ℤ) := Multiset.coe_le.mpr hs2.subperm
        _ = (maestro : Multiset ℤ) :=
            Multiset.coe_eq_coe.mpr (List.perm_insertionSort _ maestro)
    · have hcons := conservacion_esclavos v (ordenarFechas maestro)
        (ordenarFechas esclavo) []
      rw [hp]
      calc ((List.foldl (pasoMaestro v) (ordenarFechas esclavo, [])
              (ordenarFechas maestro)).2.map (fun p => p.2.1) : Multiset ℤ)
          ≤ ((List.foldl (pasoMaestro v) (ordenarFechas esclavo, [])
              (ordenarFechas maestro)).2.map (fun p => p.2.1) : Multiset ℤ) +
            ((List.foldl (pasoMaestro v) (ordenarFechas esclavo, [])
              (ordenarFechas maestro)).1 : Multiset ℤ) := self_le_add_right _ _
        _ = ((List.map (fun p => p.2.1) ([] : List Par) : List ℤ) : Multiset ℤ) +
            (ordenarFechas esclavo : Multiset ℤ) := hcons
        _ = (ordenarFechas esclavo : Multiset ℤ) := by simp
        _ = (esclavo : Multiset ℤ) :=
            Multiset.coe_eq_coe.mpr (List.perm_insertionSort _ esclavo)

/-- C1 witness: master `[0, 10]`, slave `[1]`, window 90 yields the single pair
`(0, 1, 1)`; its master column is a sub-multiset of the masters and its slave
column a sub-multiset of the slaves. -/
theorem emparejamiento_inyectivo_witness :
    ((([((0 : ℤ), (1 : ℤ), (1 : ℤ))] : List Par).map (fun p => p.1) : List ℤ) :
        Multiset ℤ) ≤ (([0, 10] : List ℤ) : Multiset ℤ) ∧
    ((([((0 : ℤ), (1 : ℤ), (1 : ℤ))] : List Par).map (fun p => p.2.1) : List ℤ) :
        Multiset ℤ) ≤ (([1] : List ℤ) : Multiset ℤ) :=
  emparejamiento_inyectivo [0, 10] [1] 90 [1] [(0, 1, 1)] rfl

/-! ## C4: every accepted pair respects the search window -/

lemma pares_en_ventana (v : ℤ) :
    ∀ (ms pool : List ℤ) (acc : List Par),
      (∀ p ∈ acc, p.2.2 = p.2.1 - p.1 ∧ |p.2.2| ≤ v) →
      ∀ p ∈ (List.foldl (pasoMaestro v) (pool, acc) ms).2,
        p.2.2 = p.2.1 - p.1 ∧ |p.2.2| ≤ v := by
  intro ms
  induction ms with
  | nil => intro pool acc hacc; exact hacc
  | cons m ms ih =>
      intro pool acc hacc
      rw [List.foldl_cons]
      rcases hsel : seleccionar pool m with _ | ⟨i, f⟩
      · rw [pasoMaestro_none v pool acc m hsel]
        exact ih pool acc hacc
      · by_cases hw : |f - m| ≤ v
        · rw [pasoMaestro_acepta v pool acc m i f hsel hw]
          apply ih
          intro p hp
          rcases List.mem_append.mp hp with hp | hp
          · exact hacc p hp
          · rw [List.mem_singleton] at hp
            subst hp
            exact ⟨rfl, hw⟩
        · rw [pasoMaestro_rechaza v pool acc m i f hsel hw]
          exact ih pool acc hacc

/-- C4: every pair emitted by the matcher has `lagDays = slave − master` and
`|lagDays| ≤ searchWindowDays`; no pair exceeding the window appears. -/
theorem desfases_acotados (maestro esclavo : List ℤ) (v : ℤ) (ds : List ℤ)
    (pares : List Par)
    (h : calcular_desfases_entre_picos maestro esclavo v = .ok (ds, pares)) :
    ∀ p ∈ pares, p.2.2 = p.2.1 - p.1 ∧ |p.2.2| ≤ v := by
  rcases calcular_ok_pares maestro esclavo v ds pares h with rfl | hp
  · intro p hp
    cases hp
  · rw [hp]
    apply pares_en_ventana
    intro p hp
    cases hp

/-- C4 witness: the pair `(0, 1, 1)` produced on master `[0, 10]`, slave `[1]`,
window 90 satisfies the lag equation and the bound. -/
theorem desfases_acotados_witness :
    ((0 : ℤ), (1 : ℤ), (1 : ℤ)).2.2 =
        ((0 : ℤ), (1 : ℤ), (1 : ℤ)).2.1 - ((0 : ℤ), (1 : ℤ), (1 : ℤ)).1 ∧
      |((0 : ℤ), (1 : ℤ), (1 : ℤ)).2.2| ≤ 90 :=
  desfases_acotados [0, 10] [1] 90 [1] [(0, 1, 1)] rfl (0, 1, 1) (by decide)

/-! ## C8: identical master and slave sequences -/

lemma seleccionar_cabeza (x : ℤ) (xs : List ℤ) :
    seleccionar (x :: xs) x = some (0, x) := by
  have hb : bisectLeft (x :: xs) x = 0 := by
    rw [bisectLeft_cons, if_neg (lt_irrefl x)]
  have hc : candidatos (x :: xs) x = [(0, x)] := by
    unfold candidatos
    rw [hb]
    simp
  simp [seleccionar, hc]

/-- Matching a sorted list against (a pool equal to) itself pairs every element
with itself at lag 0. -/
lemma identicos_fold (v : ℤ) (hv : 0 ≤ v) :
    ∀ (L : List ℤ) (acc : List Par),
      List.foldl (pasoMaestro v) (L, acc) L =
        ([], acc ++ L.map (fun x => ((x, x, 0) : Par))) := by
  intro L
  induction L with
  | nil => intro acc; simp
  | cons x xs ih =>
      intro acc
      rw [List.foldl_cons]
      have habs : |x - x| ≤ v := by rw [sub_self, abs_zero]; exact hv
      rw [pasoMaestro_acepta v (x :: xs) acc x 0 x (seleccionar_cabeza x xs) habs]
      show List.foldl (pasoMaestro v) (xs, acc ++ [(x, x, x - x)]) xs = _
      rw [sub_self, ih]
      simp

lemma estadisticas_ceros (ds : List ℤ) (h0 : ds ≠ []) (hz : ∀ d ∈ ds, d = 0) :
    (estadisticas ds).1 = some 0 := by
  rcases ds with _ | ⟨d, _ | ⟨d2, tl⟩⟩
  · exact absurd rfl h0
  · have : d = 0 := hz d (by simp)
    subst this
    rfl
  · show some (varQ (d :: d2 :: tl)) = some 0
    congr 1
    have hsum : (((d :: d2 :: tl) : List ℤ).map (fun x : ℤ => (x : ℚ))).sum = 0 := by
      apply List.sum_eq_zero
      intro x hx
      obtain ⟨y, hy, rfl⟩ := List.mem_map.mp hx
      rw [hz y hy]
      norm_num
    have hmean : meanQ (d :: d2 :: tl) = 0 := by
      rw [meanQ, hsum, zero_div]
    rw [varQ]
    have hsq : (((d :: d2 :: tl) : List ℤ).map
        (fun x : ℤ => ((x : ℚ) - meanQ (d :: d2 :: tl)) ^ 2)).sum = 0 := by
      apply List.sum_eq_zero
      intro x hx
      obtain ⟨y, hy, rfl⟩ := List.mem_map.mp hx
      rw [hz y hy, hmean]
      norm_num
    rw [hsq, zero_div]

lemma resumirAux_identicos (l : List ℤ) (hl : l ≠ []) (vb : ℤ) (hv : 0 ≤ vb)
    (vc : Option ℤ) (hw : ∀ w, vc = some w → 0 ≤ w) :
    (∀ d ∈ (resumirAux l l vb vc).desfases, d = 0) ∧
      (resumirAux l l vb vc).varianza = some 0 := by
  have hne : ¬ (l = [] ∨ l = []) := by simp [hl]
  have hfold := identicos_fold vb hv (ordenarFechas l) []
  have hcore2 : (calcularCore l l vb).2 =
      (ordenarFechas l).map (fun x => ((x, x, 0) : Par)) := by
    rw [calcularCore, if_neg hne]
    simp [hfold]
  have hcore1 : (calcularCore l l vb).1 =
      ((ordenarFechas l).map (fun x => ((x, x, 0) : Par))).map (fun p => p.2.2) := by
    rw [calcularCore_fst, hcore2]
  have hzero : ∀ p ∈ (ordenarFechas l).map (fun x => ((x, x, 0) : Par)),
      p.2.2 = (0 : ℤ) := by
    intro p hp
    obtain ⟨x, _, rfl⟩ := List.mem_map.mp hp
    rfl
  have hsl : ordenarFechas l ≠ [] := by
    intro hsl
    apply hl
    have hperm := List.perm_insertionSort (· ≤ ·) l
    rw [show List.insertionSort (· ≤ ·) l = ordenarFechas l from rfl, hsl] at hperm
    exact (hperm.symm).eq_nil
  constructor
  · intro d hd
    have hdes : (resumirAux l l vb vc).desfases = (calcularCore l l vb).1 := rfl
    rw [hdes, hcore1] at hd
    obtain ⟨p, hp, rfl⟩ := List.mem_map.mp hd
    exact hzero p hp
  · have hval : (resumirAux l l vb vc).pares_validos =
        (ordenarFechas l).map (fun x => ((x, x, 0) : Par)) := by
      cases vc with
      | none => exact hcore2
      | some w =>
          have hw0 : (0 : ℤ) ≤ w := hw w rfl
          show (calcularCore l l vb).2.filter (fun p => decide (|p.2.2| ≤ w)) = _
          rw [hcore2]
          apply List.filter_eq_self.mpr
          intro p hp
          rw [decide_eq_true_eq, hzero p hp]
          simpa using hw0
    have hv2 : (resumirAux l l vb vc).varianza =
        (estadisticas ((resumirAux l l vb vc).pares_validos.map
          (fun p => p.2.2))).1 := rfl
    rw [hv2, hval]
    apply estadisticas_ceros
    · simp [hsl]
    · intro d hd
      obtain ⟨p, hp, rfl⟩ := List.mem_map.mp hd
      exact hzero p hp

/-- C8 counterexample: on the (identical) empty sequences the reported variance
is the NaN sentinel, not 0 — the claim fails for empty inputs. -/
theorem secuencias_identicas_counterexample :
    (resumir_desfases [] [] 90 (some 45)).varianza = none ∧
    (resumir_desfases [] [] 90 (some 45)).varianza ≠ some 0 :=
  ⟨rfl, by decide⟩

/-- C8 amended: for every nonempty input, identical master and slave sequences
yield all-zero lags and variance 0 (empty inputs instead yield the undefined
sentinel). -/
theorem secuencias_identicas (l : List ℤ) (hl : l ≠ []) (vb : ℤ)
    (vc : Option ℤ) :
    (∀ d ∈ (resumir_desfases l l vb vc).desfases, d = 0) ∧
    (resumir_desfases l l vb vc).varianza = some 0 := by
  unfold resumir_desfases
  apply resumirAux_identicos l hl (max 0 vb) (le_max_left 0 vb)
  intro w hwE
  cases vc with
  | none => cases hwE
  | some u =>
      rw [Option.map_some'] at hwE
      obtain h := Option.some.inj hwE
      rw [← h]
      exact le_min (le_max_left 0 u) (le_max_left 0 vb)

/-- C8 witness: identical singleton sequences `[5]` give variance 0, and the
single reported lag is 0. -/
theorem secuencias_identicas_witness :
    (resumir_desfases [5] [5] 90 (some 45)).varianza = some 0 ∧ (0 : ℤ) = 0 :=
  ⟨(secuencias_identicas [5] (by decide) 90 (some 45)).2,
    (secuencias_identicas [5] (by decide) 90 (some 45)).1 0 (by decide)⟩

/-! ## C9: the best-lag scan -/

/-- Invariant of the best-lag scan after processing the lags `P`: either no
processed lag beat the initial sentinel `(-1, 0)`, or the state holds the
first processed lag attaining the running maximum. -/
def EstadoBueno (corr : ℤ → Option ℚ) (P : List ℤ) (st : ℚ × ℤ) : Prop :=
  (st = (-1, 0) ∧ ∀ l ∈ P, ∀ q, corr l = some q → q ≤ -1) ∨
  (st.2 ∈ P ∧ corr st.2 = some st.1 ∧ -1 < st.1 ∧
    (∀ l ∈ P, ∀ q, corr l = some q → q ≤ st.1) ∧
    (∀ l ∈ P, l < st.2 → ∀ q, corr l = some q → q < st.1))

lemma pasoLag_invariante (corr : ℤ → Option ℚ) (P : List ℤ) (b : ℚ) (bl l0 : ℤ)
    (hst : EstadoBueno corr P (b, bl)) (hordP : ∀ l ∈ P, l < l0) :
    EstadoBueno corr (P ++ [l0]) (pasoLag corr (b, bl) l0) := by
  have hmem0 : l0 ∈ P ++ [l0] := List.mem_append_right _ (by simp)
  rcases hc : corr l0 with _ | c
  · have hpaso : pasoLag corr (b, bl) l0 = (b, bl) := by simp [pasoLag, hc]
    rw [hpaso]
    rcases hst with ⟨h1, h2⟩ | ⟨h1, h2, h3, h4, h5⟩
    · left
      refine ⟨h1, ?_⟩
      intro l hl q hq
      rcases List.mem_append.mp hl with hl | hl
      · exact h2 l hl q hq
      · rw [List.mem_singleton] at hl
        subst hl
        rw [hc] at hq
        cases hq
    · right
      refine ⟨List.mem_append_left _ h1, h2, h3, ?_, ?_⟩
      · intro l hl q hq
        rcases List.mem_append.mp hl with hl | hl
        · exact h4 l hl q hq
        · rw [List.mem_singleton] at hl
          subst hl
          rw [hc] at hq
          cases hq
      · intro l hl hlt q hq
        rcases List.mem_append.mp hl with hl | hl
        · exact h5 l hl hlt q hq
        · rw [List.mem_singleton] at hl
          subst hl
          rw [hc] at hq
          cases hq
  · by_cases hbc : b < c
    · have hpaso : pasoLag corr (b, bl) l0 = (c, l0) := by simp [pasoLag, hc, hbc]
      rw [hpaso]
      right
      have hb1 : -1 ≤ b := by
        rcases hst with ⟨h1, _⟩ | ⟨_, _, h3, _, _⟩
        · injection h1 with hb _
          rw [hb]
        · exact h3.le
      have hqb : ∀ l ∈ P, ∀ q, corr l = some q → q ≤ b := by
        rcases hst with ⟨h1, h2⟩ | ⟨_, _, _, h4, _⟩
        · intro l hl q hq
          injection h1 with hb _
          rw [hb]
          exact h2 l hl q hq
        · exact h4
      refine ⟨hmem0, hc, lt_of_le_of_lt hb1 hbc, ?_, ?_⟩
      · intro l hl q hq
        rcases List.mem_append.mp hl with hl | hl
        · exact le_of_lt (lt_of_le_of_lt (hqb l hl q hq) hbc)
        · rw [List.mem_singleton] at hl
          subst hl
          rw [hc] at hq
          obtain rfl := Option.some.inj hq
          exact le_refl _
      · intro l hl hlt q hq
        rcases List.mem_append.mp hl with hl | hl
        · exact lt_of_le_of_lt (hqb l hl q hq) hbc
        · rw [List.mem_singleton] at hl
          subst hl
          exact absurd hlt (lt_irrefl _)
    · have hpaso : pasoLag corr (b, bl) l0 = (b, bl) := by simp [pasoLag, hc, hbc]
      rw [hpaso]
      have hcb : c ≤ b := not_lt.mp hbc
      rcases hst with ⟨h1, h2⟩ | ⟨h1, h2, h3, h4, h5⟩
      · left
        refine ⟨h1, ?_⟩
        intro l hl q hq
        rcases List.mem_append.mp hl with hl | hl
        · exact h2 l hl q hq
        · rw [List.mem_singleton] at hl
          subst hl
          rw [hc] at hq
          obtain rfl := Option.some.inj hq
          injection h1 with hb _
          rw [← hb]
          exact hcb
      · right
        refine ⟨List.mem_append_left _ h1, h2, h3, ?_, ?_⟩
        · intro l hl q hq
          rcases List.mem_append.mp hl with hl | hl
          · exact h4 l hl q hq
          · rw [List.mem_singleton] at hl
            subst hl
            rw [hc] at hq
            obtain rfl := Option.some.inj hq
            exact hcb
        · intro l hl hlt q hq
          rcases List.mem_append.mp hl with hl | hl
          · exact h5 l hl hlt q hq
          · rw [List.mem_singleton] at hl
            subst hl
            exact absurd hlt (not_lt.mpr (le_of_lt (hordP bl h1)))

lemma escaneo_invariante (corr : ℤ → Option ℚ) :
    ∀ (S P : List ℤ) (st : ℚ × ℤ),
      EstadoBueno corr P st →
      (∀ l ∈ P, ∀ l' ∈ S, l < l') →
      S.Pairwise (· < ·) →
      EstadoBueno corr (P ++ S) (S.foldl (pasoLag corr) st) := by
  intro S
  induction S with
  | nil =>
      intro P st h _ _
      simpa using h
  | cons l0 S ih =>
      intro P st hst horder hpair
      rw [List.foldl_cons]
      obtain ⟨b, bl⟩ := st
      have hstep : EstadoBueno corr (P ++ [l0]) (pasoLag corr (b, bl) l0) :=
        pasoLag_invariante corr P b bl l0 hst
          (fun l hl => horder l hl l0 (by simp))
      have hP' : ∀ l ∈ P ++ [l0], ∀ l' ∈ S, l < l' := by
        intro l hl l' hl'
        rcases List.mem_append.mp hl with hl | hl
        · exact horder l hl l' (by simp [hl'])
        · rw [List.mem_singleton] at hl
          subst hl
          exact (List.pairwise_cons.mp hpair).1 l' hl'
      have hpair' : S.Pairwise (· < ·) := (List.pairwise_cons.mp hpair).2
      have := ih (P ++ [l0]) (pasoLag corr (b, bl) l0) hstep hP' hpair'
      simpa [List.append_assoc] using this

lemma lagRange_pairwise : lagRange.Pairwise (· < ·) := by
  unfold lagRange
  rw [List.pairwise_map]
  have h2 : ∀ a b : ℕ, a < b → ((a : ℤ) - 60 < (b : ℤ) - 60) :=
    fun a b h => by omega
  exact (List.pairwise_lt_range 121).imp (fun h => h2 _ _ h)

lemma mem_lagRange_neg60 : (-60 : ℤ) ∈ lagRange := by
  have h : (0 : ℕ) ∈ List.range 121 := List.mem_range.mpr (by norm_num)
  have h2 : ((0 : ℕ) : ℤ) - 60 = -60 := by norm_num
  exact List.mem_map.mpr ⟨0, h, h2⟩

lemma escaneo_bueno (corr : ℤ → Option ℚ) :
    EstadoBueno corr lagRange (mejorLagScan corr) := by
  have h := escaneo_invariante corr lagRange [] (-1, 0)
    (Or.inl ⟨rfl, by intro l hl; cases hl⟩)
    (by intro l hl; cases hl) lagRange_pairwise
  simpa [mejorLagScan] using h

/-- C9 counterexample: with every correlation exactly `-1` (attainable: two
exactly anti-proportional series are perfectly anticorrelated at every shift),
the scan never beats its initial sentinel `max_corr = -1`, so the cell keeps
the default lag `0` — not the first lag `-60` attaining the maximum; the
claimed "first maximizing lag" characterization fails at this input. -/
theorem mejor_lag_counterexample :
    mejorLag (fun _ => some (-1)) = 0 ∧
    ¬ primerLagMaximo (fun _ => some (-1)) (mejorLag (fun _ => some (-1))) := by
  have hml : mejorLag (fun _ => some (-1)) = 0 := by
    have hfix : ∀ (L : List ℤ) (st : ℚ × ℤ), st.1 = -1 →
        L.foldl (pasoLag (fun _ => some (-1))) st = st := by
      intro L
      induction L with
      | nil => intro st _; rfl
      | cons x xs ih =>
          intro st hst
          rw [List.foldl_cons]
          have hp : pasoLag (fun _ => some (-1)) st x = st := by
            simp [pasoLag, hst]
          rw [hp]
          exact ih st hst
    unfold mejorLag mejorLagScan
    rw [hfix lagRange (-1, 0) rfl]
  refine ⟨hml, ?_⟩
  rw [hml]
  rintro ⟨_, hfirst⟩
  refine hfirst (-60) mem_lagRange_neg60 (by norm_num)
    ⟨mem_lagRange_neg60, -1, rfl, ?_⟩
  intro l' _ q' hq'
  obtain rfl := Option.some.inj hq'
  exact le_refl _

/-- C9 amended: scanning `[-60, 60]` ascending and replacing the running best
only on a strictly greater correlation makes the cell the first (most
negative) lag attaining the maximum correlation — provided some correlation
exceeds the initial sentinel `-1`; when every defined correlation is `≤ -1`
(or none is defined) the cell keeps the default lag `0`.  Diagonal cells
equal `0`; off-diagonal cells are exactly the scan result. -/
theorem mejor_lag_primer_maximo :
    (∀ corr : ℤ → Option ℚ,
      (∃ l ∈ lagRange, ∃ q, corr l = some q ∧ -1 < q) →
      primerLagMaximo corr (mejorLag corr)) ∧
    (∀ corr : ℤ → Option ℚ,
      (∀ l ∈ lagRange, ∀ q, corr l = some q → q ≤ -1) →
      mejorLag corr = 0) ∧
    (∀ (corrM : ℕ → ℕ → ℤ → Option ℚ) (i : ℕ), celdaDesfase corrM i i = 0) ∧
    (∀ (corrM : ℕ → ℕ → ℤ → Option ℚ) (i j : ℕ), i ≠ j →
      celdaDesfase corrM i j = mejorLag (corrM i j)) := by
  refine ⟨?_, ?_, ?_, ?_⟩
  · rintro corr ⟨l, hl, q, hq, hq1⟩
    rcases escaneo_bueno corr with ⟨_, h2⟩ | ⟨h1, h2, _, h4, h5⟩
    · exact absurd (h2 l hl q hq) (by linarith)
    · constructor
      · exact ⟨h1, (mejorLagScan corr).1, h2, h4⟩
      · intro l' hl' hlt hmax'
        obtain ⟨_, q', hq', hqmax'⟩ := hmax'
        have hq2 : q' < (mejorLagScan corr).1 := h5 l' hl' hlt q' hq'
        have hq3 : (mejorLagScan corr).1 ≤ q' := hqmax' (mejorLag corr) h1 _ h2
        linarith
  · intro corr hall
    rcases escaneo_bueno corr with ⟨h1, _⟩ | ⟨h1, h2, h3, _, _⟩
    · unfold mejorLag
      rw [h1]
    · exact absurd (hall _ h1 _ h2) (by linarith)
  · intro corrM i
    simp [celdaDesfase]
  · intro corrM i j hij
    simp [celdaDesfase, hij]

/-- A concrete correlation oracle for the C9 witness: correlation 1 at lag
`-60`, correlation 0 elsewhere. -/
def corrTestigo : ℤ → Option ℚ := fun l => some (if l = -60 then 1 else 0)

/-- C9 witness: on `corrTestigo` the scan returns the first lag attaining the
maximum; diagonal and off-diagonal cells behave as stated. -/
theorem mejor_lag_primer_maximo_witness :
    primerLagMaximo corrTestigo (mejorLag corrTestigo) ∧
    celdaDesfase (fun _ _ => corrTestigo) 3 3 = 0 ∧
    celdaDesfase (fun _ _ => corrTestigo) 0 1 = mejorLag corrTestigo := by
  refine ⟨?_, ?_, ?_⟩
  · exact mejor_lag_primer_maximo.1 corrTestigo
      ⟨-60, mem_lagRange_neg60, 1, by simp [corrTestigo], by norm_num⟩
  · exact mejor_lag_primer_maximo.2.2.1 (fun _ _ => corrTestigo) 3
  · exact mejor_lag_primer_maximo.2.2.2 (fun _ _ => corrTestigo) 0 1 (by decide)
